import Mathlib

/-!
Verification development for the readmems diagnostic utility
(src/src/readmems.c).  The definitions below are shallow embeddings of the
command dispatch and retry/hysteresis engine of that file: the IAC
close/open hysteresis loops, the telemetry read loops, the on/off actuator
sequences, the interactive REPL line handling, and the interactive
response-drain loop.  External transport calls (mems_test_actuator,
mems_read, readserial, writeserial) are modelled by their observable
results, supplied as explicit streams.
-/

namespace Readmems

/-- Outcome of one call to mems_test_actuator as observed by the caller in
main: success is the boolean return value, readval the byte stored through
the readval pointer (meaningful only on success). -/
structure ActuatorOutcome where
  success : Bool
  readval : Nat
deriving DecidableEq

/-- Initial value of the iac_limit_count variable in main
(src/src/readmems.c line 177): the re-fire budget for the IAC close loop. -/
def iac_limit_count : Nat := 80

/-- Budget update performed by one iteration of the MC_IAC_Close loop body
(lines 323-331): the counter is decremented exactly when the probe succeeded
and the observed position byte is 0. -/
def closeBudgetStep (o : ActuatorOutcome) (count : Nat) : Nat :=
  if o.success && (o.readval == 0) then count - 1 else count

/-- The MC_IAC_Close do/while loop (lines 320-332), driven by the stream of
actuator probe outcomes.  Each list element is the outcome of one probe.
Returns (number of probes performed, final success flag), or none when the
finite outcome stream is exhausted while the loop condition
(success and nonzero budget) still holds. -/
def iacCloseLoop : List ActuatorOutcome → Nat → Option (Nat × Bool)
  | [], _ => none
  | o :: rest, count =>
      let c := closeBudgetStep o count
      if o.success && (c != 0) then
        (iacCloseLoop rest c).map (fun p => (p.1 + 1, p.2))
      else
        some (1, o.success)

/-- Fully-open IAC position threshold used by the MC_IAC_Open loop
(line 342): 0xB4. -/
def iacOpenThreshold : Nat := 0xB4

/-- The MC_IAC_Open do/while loop (lines 339-342): repeat the open probe
while it succeeds and the observed position byte is below the threshold.
Returns (number of probes performed, final success flag), or none when the
finite outcome stream is exhausted while the loop condition still holds. -/
def iacOpenLoop : List ActuatorOutcome → Option (Nat × Bool)
  | [] => none
  | o :: rest =>
      if o.success && (o.readval < iacOpenThreshold : Bool) then
        (iacOpenLoop rest).map (fun p => (p.1 + 1, p.2))
      else
        some (1, o.success)

/-- Accumulator form of the MC_Read / MC_Read_Raw loop
(lines 252-268 and 270-294; the two cases have the same loop structure and
differ only in which acquisition call is made and how a successful reading
is rendered).  acq i is the success of the i-th acquisition attempt;
attempts counts completed attempts and s is the running success flag. -/
def telemetryRun (acq : Nat → Bool) : Nat → Nat → Bool → Nat × Bool
  | 0, attempts, s => (attempts, s)
  | n + 1, attempts, s => telemetryRun acq n (attempts + 1) (s || acq attempts)

/-- The telemetry loop for a non-infinite LoopSpec with count n: perform n
acquisition attempts starting from a false success flag, as in
while (read_loop_count-- greater than 0) with success initially false.
Returns (number of attempts, overall success flag). -/
def telemetryLoop (acq : Nat → Bool) (n : Nat) : Nat × Bool :=
  telemetryRun acq n 0 false

/-- Actuator command identifiers passed to mems_test_actuator by main. -/
inductive MemsCommand
  | ptcRelayOn
  | ptcRelayOff
  | fuelPumpOn
  | fuelPumpOff
  | acRelayOn
  | acRelayOff
  | fireCoil
  | testInjectors
  | closeIAC
  | openIAC
deriving DecidableEq

/-- Observable events of an on/off actuator test: an actuator probe with a
given command, or a blocking sleep of a given number of seconds. -/
inductive ActEvent
  | probe (c : MemsCommand)
  | dwell (seconds : Nat)
deriving DecidableEq

/-- Dwell between the on probe and the off probe: sleep(2) at lines
307, 315 and 348. -/
def dwellSeconds : Nat := 2

/-- The MC_PTC / MC_FuelPump / MC_AC cases (lines 304-310, 312-318,
345-351, textually identical up to the actuator command constants):
probe on; if it succeeds, sleep 2 seconds then probe off, with the off
probe result as overall success; if the on probe fails, success keeps its
initial false value and the off probe is never issued.  onOk and offOk are
the results the transport would return for the two probes; the first
component is the event trace actually performed. -/
def onOffActuatorTest (onCmd offCmd : MemsCommand) (onOk offOk : Bool) :
    List ActEvent × Bool :=
  if onOk then
    ([ActEvent.probe onCmd, ActEvent.dwell dwellSeconds, ActEvent.probe offCmd], offOk)
  else
    ([ActEvent.probe onCmd], false)

/-- Size in bytes of the response_buffer array declared in main
(line 185). -/
def responseBufferSize : Nat := 16384

/-- The NUL character, standing for the terminator bytes that follow the
line proper in the fgets buffer. -/
def nulChar : Char := Char.ofNat 0

/-- Character of the fgets buffer at index i; indices past the line content
read as NUL, matching the null-terminated C buffer. -/
def charAt (cs : List Char) (i : Nat) : Char :=
  cs.getD i nulChar

/-- The C locale isspace predicate used by strtoul when skipping leading
whitespace: space, tab, newline, vertical tab, form feed, carriage
return. -/
def isSpaceChar (c : Char) : Bool :=
  c = ' ' || c = '\t' || c = '\n' || c = Char.ofNat 11 || c = Char.ofNat 12 || c = '\r'

/-- Value of a hexadecimal digit character, none for a non-digit. -/
def hexDigitVal (c : Char) : Option Nat :=
  if '0' ≤ c ∧ c ≤ '9' then some (c.toNat - Char.toNat '0')
  else if 'a' ≤ c ∧ c ≤ 'f' then some (c.toNat - Char.toNat 'a' + 10)
  else if 'A' ≤ c ∧ c ≤ 'F' then some (c.toNat - Char.toNat 'A' + 10)
  else none

/-- Accumulate the longest run of leading hexadecimal digits, as strtoul
does after prefix handling; parsing stops at the first non-digit. -/
def parseHexDigits : List Char → Nat → Nat
  | [], acc => acc
  | c :: rest, acc =>
      match hexDigitVal c with
      | some d => parseHexDigits rest (acc * 16 + d)
      | none => acc

/-- Hexadecimal value of a character sequence after whitespace and sign
handling: an optional 0x or 0X prefix followed by hex digits; with no
digits the value is 0, as strtoul returns when no conversion happens. -/
def hexPrefixVal (cs : List Char) : Nat :=
  if cs.take 2 = ['0', 'x'] ∨ cs.take 2 = ['0', 'X'] then
    parseHexDigits (cs.drop 2) 0
  else
    parseHexDigits cs 0

/-- ULONG_MAX on the 64-bit targets this tool is built for. -/
def ulongMax : Nat := 2 ^ 64 - 1

/-- Overflow behaviour of strtoul: values beyond ULONG_MAX saturate. -/
def saturate (v : Nat) : Nat :=
  if v ≤ ulongMax then v else ulongMax

/-- Model of strtoul(buf, NULL, 16) as called at line 118: skip leading
whitespace, handle an optional sign (a minus sign negates the converted
value in unsigned arithmetic), an optional 0x prefix, then the leading
hex-digit run; result is the unsigned long value. -/
def strtoulHex (cs : List Char) : Nat :=
  let t := cs.dropWhile (fun c => isSpaceChar c)
  if charAt t 0 = '-' then (2 ^ 64 - saturate (hexPrefixVal (t.drop 1))) % 2 ^ 64
  else if charAt t 0 = '+' then saturate (hexPrefixVal (t.drop 1))
  else saturate (hexPrefixVal t)

/-- Action taken by interactive_mode for one input line: terminate the
session, re-prompt without touching the transport, report a range error,
or write one byte to the transport. -/
inductive LineAction
  | quit
  | reprompt
  | rangeError
  | writeByte (b : Nat)
deriving DecidableEq

/-- Per-line dispatch of interactive_mode (lines 111-154) on the fgets
buffer contents.  The quit test is strncmp against q with length 1 and
against quit with length 4; the blank test checks byte 0 against newline
and byte 1 against carriage return; otherwise the line goes through
strtoul base 16, is truncated to the uint8_t variable icmd, checked
against the range 0 to 0xff, and written as a single byte. -/
def processLine (cs : List Char) : LineAction :=
  if charAt cs 0 = 'q' ∨ cs.take 4 = ['q', 'u', 'i', 't'] then
    LineAction.quit
  else if charAt cs 0 ≠ '\n' ∧ charAt cs 1 ≠ '\r' then
    let icmd := strtoulHex cs % 256
    if 0 ≤ icmd ∧ icmd ≤ 0xff then LineAction.writeByte icmd
    else LineAction.rangeError
  else
    LineAction.reprompt

/-- One element of the read stream consumed by the interactive drain loop:
the return value of readserial with quantity 1 (1, 0, or -1 from the
underlying read call) paired with the byte that call stores into the
buffer when the return value is positive. -/
def drainTerminal : List (Int × Nat) → Option Int
  | [] => none
  | p :: rest => if p.1 > 0 then drainTerminal rest else some p.1

/-- The drain do/while loop of interactive_mode (lines 125-129) with an
explicit memory: each read with positive return value stores its byte at
offset total_bytes_read, and the return value (positive or not) is added
to the running total; the loop repeats while the last return value was
positive.  Returns the final total and the final buffer contents, or none
when the finite read stream is exhausted while the loop still runs. -/
def drainMachine : List (Int × Nat) → Int → (Int → Nat) → Option (Int × (Int → Nat))
  | [], _, _ => none
  | p :: rest, total, mem =>
      let mem2 := if p.1 > 0 then (fun i => if i = total then p.2 else mem i) else mem
      if p.1 > 0 then drainMachine rest (total + p.1) mem2
      else some (total + p.1, mem2)

/-- Number of reads of the stream that actually delivered a byte before the
drain loop terminated: the leading run of positive return values. -/
def collectedCount (reads : List (Int × Nat)) : Nat :=
  (reads.takeWhile (fun p => decide (0 < p.1))).length

/-- The bytes delivered by the drain loop before it terminated, in
order. -/
def collectedBytes (reads : List (Int × Nat)) : List Nat :=
  (reads.takeWhile (fun p => decide (0 < p.1))).map (fun p => p.2)

/-- Buffer offsets at which the drain loop stores a byte, in order: each
read with a positive return value stores at the current total, which then
advances by that return value. -/
def drainWriteOffsets : List (Int × Nat) → Int → List Int
  | [], _ => []
  | p :: rest, total =>
      if p.1 > 0 then total :: drainWriteOffsets rest (total + p.1)
      else []

/-- Exit status of main for an unrecognized command name (line 214). -/
def argErrorStatus : Int := -1

/-- Exit status of main when the session ran but the overall success flag
is false (line 387). -/
def runtimeFailureStatus : Int := -2

/-- Final exit status computed at line 387 from the overall success
flag. -/
def exitStatus (success : Bool) : Int :=
  if success then 0 else runtimeFailureStatus

/-- Return value of interactive_mode as a defined value: the function is
declared bool but control falls off the end of the function body with no
return statement on any path, so no defined boolean value is ever
returned; modelled as none. -/
def interactiveModeReturn : Option Bool := none

/-- Helper: running the close-IAC loop with budget n over a stream of
probes that all succeed with position 0 performs exactly n probes and ends
with the success flag true, provided the stream is long enough. -/
theorem iacClose_all_zero (s : List ActuatorOutcome) :
    ∀ n : Nat, (∀ o ∈ s, o = ⟨true, 0⟩) → 1 ≤ n → n ≤ s.length →
      iacCloseLoop s n = some (n, true) := by
  induction s with
  | nil =>
      intro n _ h1 hlen
      simp at hlen
      omega
  | cons o rest ih =>
      intro n hall h1 hlen
      have ho : o = (⟨true, 0⟩ : ActuatorOutcome) := hall o (by simp)
      subst ho
      by_cases h2 : n = 1
      · subst h2
        simp [iacCloseLoop, closeBudgetStep]
      · have hne : n - 1 ≠ 0 := by omega
        have hrest : iacCloseLoop rest (n - 1) = some (n - 1, true) := by
          refine ih (n - 1) (fun o hmo => hall o (by simp [hmo])) (by omega) ?_
          simp at hlen
          omega
        have hn : n - 1 + 1 = n := by omega
        simp [iacCloseLoop, closeBudgetStep, hne, hrest, hn]

/-- Helper: first components of telemetryRun count attempts. -/
theorem telemetryRun_fst (acq : Nat → Bool) (n : Nat) :
    ∀ (a : Nat) (s : Bool), (telemetryRun acq n a s).1 = a + n := by
  induction n with
  | zero =>
      intro a s
      simp [telemetryRun]
  | succ k ih =>
      intro a s
      rw [show telemetryRun acq (k + 1) a s = telemetryRun acq k (a + 1) (s || acq a) from rfl]
      rw [ih]
      omega

/-- Helper: the success flag of telemetryRun is true exactly when it
started true or some attempted acquisition succeeded. -/
theorem telemetryRun_snd (acq : Nat → Bool) (n : Nat) :
    ∀ (a : Nat) (s : Bool),
      (telemetryRun acq n a s).2 = true ↔
        (s = true ∨ ∃ i, i < n ∧ acq (a + i) = true) := by
  induction n with
  | zero =>
      intro a s
      simp [telemetryRun]
  | succ k ih =>
      intro a s
      rw [show telemetryRun acq (k + 1) a s = telemetryRun acq k (a + 1) (s || acq a) from rfl]
      rw [ih]
      constructor
      · rintro (hs | ⟨i, hi, hacq⟩)
        · rcases Bool.or_eq_true_iff.mp hs with hs | hs
          · exact Or.inl hs
          · refine Or.inr ⟨0, by omega, ?_⟩
            simpa using hs
        · refine Or.inr ⟨i + 1, by omega, ?_⟩
          have h : a + (i + 1) = a + 1 + i := by omega
          rw [h]
          exact hacq
      · rintro (hs | ⟨i, hi, hacq⟩)
        · exact Or.inl (Bool.or_eq_true_iff.mpr (Or.inl hs))
        · cases i with
          | zero =>
              refine Or.inl (Bool.or_eq_true_iff.mpr (Or.inr ?_))
              simpa using hacq
          | succ j =>
              refine Or.inr ⟨j, by omega, ?_⟩
              have h : a + 1 + j = a + (j + 1) := by omega
              rw [h]
              exact hacq

/-- C1 counterexample: for a probe stream that always succeeds and always
reads position 0, the close-IAC loop with its budget of 80 performs 80
probes in total, not 81 as the claim states; it still reports success. -/
theorem iacClose_total_probes_not_81 :
    iacCloseLoop (List.replicate 100 ⟨true, 0⟩) iac_limit_count = some (80, true) ∧
    (iacCloseLoop (List.replicate 100 ⟨true, 0⟩) iac_limit_count).map (fun p => p.1) ≠
      some 81 := by
  have h : iacCloseLoop (List.replicate 100 ⟨true, 0⟩) iac_limit_count = some (80, true) := by
    refine iacClose_all_zero _ 80 (fun o hmo => List.eq_of_mem_replicate hmo) (by omega) ?_
    simp
  refine ⟨h, ?_⟩
  rw [h]
  simp

/-- C1 amended: for a probe stream that always succeeds and always reads
position 0, the close-IAC sequencer performs exactly 80 probes in total
(79 after the first zero reading) and then reports overall success; the
re-fire budget is decremented by every successful probe that reads 0,
including the first one, and a probe reading a non-zero position never
decrements it. -/
theorem iacClose_eighty_probes_total :
    (∀ s : List ActuatorOutcome, (∀ o ∈ s, o = ⟨true, 0⟩) → 80 ≤ s.length →
        iacCloseLoop s iac_limit_count = some (80, true)) ∧
    (∀ (o : ActuatorOutcome) (c : Nat), o.readval ≠ 0 → closeBudgetStep o c = c) ∧
    (∀ (o : ActuatorOutcome) (c : Nat), o.success = true → o.readval = 0 →
        closeBudgetStep o c = c - 1) := by
  refine ⟨fun s hall hlen => iacClose_all_zero s 80 hall (by omega) hlen, ?_, ?_⟩
  · intro o c h
    simp [closeBudgetStep, h]
  · intro o c hs h0
    simp [closeBudgetStep, hs, h0]

/-- Witness for iacClose_eighty_probes_total at the concrete stream of 80
always-successful zero readings. -/
theorem iacClose_eighty_probes_total_witness :
    (∀ o ∈ List.replicate 80 (⟨true, 0⟩ : ActuatorOutcome), o = (⟨true, 0⟩ : ActuatorOutcome)) ∧
    80 ≤ (List.replicate 80 (⟨true, 0⟩ : ActuatorOutcome)).length ∧
    iacCloseLoop (List.replicate 80 (⟨true, 0⟩ : ActuatorOutcome)) iac_limit_count =
      some (80, true) :=
  ⟨fun o hmo => List.eq_of_mem_replicate hmo, by simp,
    iacClose_eighty_probes_total.1 _ (fun o hmo => List.eq_of_mem_replicate hmo) (by simp)⟩

/-- C3: for every non-infinite LoopSpec with count n, the telemetry loop
(the shared loop shape of the parsed and raw read commands) performs
exactly n acquisition attempts regardless of failures, succeeds overall
exactly when some attempt succeeded, and with n = 0 performs zero attempts
and fails overall. -/
theorem telemetryLoop_attempts_and_success (acq : Nat → Bool) (n : Nat) :
    (telemetryLoop acq n).1 = n ∧
    ((telemetryLoop acq n).2 = true ↔ ∃ i, i < n ∧ acq i = true) ∧
    telemetryLoop acq 0 = (0, false) := by
  refine ⟨?_, ?_, rfl⟩
  · simpa using telemetryRun_fst acq n 0 false
  · rw [telemetryLoop, telemetryRun_snd acq n 0 false]
    simp

/-- C7: main maps the overall success flag to exit status 0 exactly when
it is true and to the distinct runtime-failure status otherwise, and the
argument-error status is distinct from both; but interactive_mode falls
off the end of its bool-returning body without a return statement, so the
interactive session has no defined reported success flag. -/
theorem exitStatus_mapping_interactive_undefined :
    (∀ s : Bool, (exitStatus s = 0 ↔ s = true)) ∧
    exitStatus false = runtimeFailureStatus ∧
    argErrorStatus ≠ 0 ∧
    argErrorStatus ≠ runtimeFailureStatus ∧
    runtimeFailureStatus ≠ 0 ∧
    interactiveModeReturn = none := by
  refine ⟨?_, by decide, by decide, by decide, by decide, rfl⟩
  intro s
  cases s <;> simp [exitStatus, runtimeFailureStatus]

/-- C8: in every on/off actuator test (PTC relay, fuel pump, A/C relay),
the off probe appears in the performed event trace exactly when the on
probe succeeded; when the on probe succeeds the trace is exactly on probe,
2-second dwell, off probe, in that order; and the overall result is true
exactly when both probes succeed. -/
theorem onOff_order_dwell_success (onCmd offCmd : MemsCommand) (onOk offOk : Bool)
    (hne : onCmd ≠ offCmd) :
    (ActEvent.probe offCmd ∈ (onOffActuatorTest onCmd offCmd onOk offOk).1 ↔ onOk = true) ∧
    (onOk = true → (onOffActuatorTest onCmd offCmd onOk offOk).1 =
        [ActEvent.probe onCmd, ActEvent.dwell 2, ActEvent.probe offCmd]) ∧
    ((onOffActuatorTest onCmd offCmd onOk offOk).2 = true ↔ onOk = true ∧ offOk = true) := by
  cases onOk <;> cases offOk <;>
    simp [onOffActuatorTest, dwellSeconds, Ne.symm hne]

/-- Witness for onOff_order_dwell_success at the PTC relay with both
probes succeeding. -/
theorem onOff_order_dwell_success_witness :
    (ActEvent.probe MemsCommand.ptcRelayOff ∈
        (onOffActuatorTest MemsCommand.ptcRelayOn MemsCommand.ptcRelayOff true true).1 ↔
      true = true) ∧
    (true = true →
      (onOffActuatorTest MemsCommand.ptcRelayOn MemsCommand.ptcRelayOff true true).1 =
        [ActEvent.probe MemsCommand.ptcRelayOn, ActEvent.dwell 2,
          ActEvent.probe MemsCommand.ptcRelayOff]) ∧
    ((onOffActuatorTest MemsCommand.ptcRelayOn MemsCommand.ptcRelayOff true true).2 = true ↔
      true = true ∧ true = true) :=
  onOff_order_dwell_success MemsCommand.ptcRelayOn MemsCommand.ptcRelayOff true true
    (by decide)

/-- C9: the open-IAC loop stops with success after the third probe on the
stream 0x10, 0x50, 0xB4; a failed probe stops it immediately with overall
failure; a successful probe at or above the 0xB4 threshold stops it
immediately with overall success; and a successful probe below the
threshold re-issues the probe with no budget consulted. -/
theorem iacOpen_threshold_and_failure_stop :
    iacOpenLoop [⟨true, 0x10⟩, ⟨true, 0x50⟩, ⟨true, 0xB4⟩] = some (3, true) ∧
    (∀ (o : ActuatorOutcome) (rest : List ActuatorOutcome), o.success = false →
        iacOpenLoop (o :: rest) = some (1, false)) ∧
    (∀ (o : ActuatorOutcome) (rest : List ActuatorOutcome), o.success = true →
        iacOpenThreshold ≤ o.readval → iacOpenLoop (o :: rest) = some (1, true)) ∧
    (∀ (o : ActuatorOutcome) (rest : List ActuatorOutcome), o.success = true →
        o.readval < iacOpenThreshold →
        iacOpenLoop (o :: rest) = (iacOpenLoop rest).map (fun p => (p.1 + 1, p.2))) := by
  refine ⟨by decide, ?_, ?_, ?_⟩
  · intro o rest hf
    simp [iacOpenLoop, hf]
  · intro o rest hs hge
    simp [iacOpenLoop, hs, Nat.not_lt.mpr hge]
  · intro o rest hs hlt
    simp [iacOpenLoop, hs, hlt]

/-- Witness for iacOpen_threshold_and_failure_stop at concrete one- and
two-probe streams. -/
theorem iacOpen_threshold_and_failure_stop_witness :
    iacOpenLoop [(⟨false, 0⟩ : ActuatorOutcome)] = some (1, false) ∧
    iacOpenLoop [(⟨true, 0xB4⟩ : ActuatorOutcome)] = some (1, true) ∧
    iacOpenLoop ((⟨true, 0x10⟩ : ActuatorOutcome) :: [(⟨true, 0xB4⟩ : ActuatorOutcome)]) =
      (iacOpenLoop [(⟨true, 0xB4⟩ : ActuatorOutcome)]).map (fun p => (p.1 + 1, p.2)) :=
  ⟨iacOpen_threshold_and_failure_stop.2.1 _ [] rfl,
    iacOpen_threshold_and_failure_stop.2.2.1 _ [] rfl (by decide),
    iacOpen_threshold_and_failure_stop.2.2.2 _ _ rfl (by decide)⟩

/-- C2: evaluating the interactive line handler at the out-of-range input
100 shows that the value 0x100 is truncated through the uint8_t variable
to 0x00 and a byte is written; moreover the range-error branch is
unreachable for every input line, because the truncated value always lies
within 0 to 0xff. -/
theorem processLine_100_writes_zero :
    processLine ['1', '0', '0', '\n'] = LineAction.writeByte 0 ∧
    ∀ cs : List Char, processLine cs ≠ LineAction.rangeError := by
  refine ⟨by decide, ?_⟩
  intro cs
  unfold processLine
  split
  · simp
  · split
    · have h : strtoulHex cs % 256 ≤ 0xff := by
        have := Nat.mod_lt (strtoulHex cs) (show 0 < 256 by omega)
        omega
      simp [h]
    · simp

/-- Witness for processLine_100_writes_zero: the unreachability of the
range-error branch instantiated at a concrete line. -/
theorem processLine_100_writes_zero_witness :
    processLine ['9', '9', '\n'] ≠ LineAction.rangeError :=
  processLine_100_writes_zero.2 ['9', '9', '\n']

/-- C5 counterexample: the input line qq (buffer contents q, q, newline)
is neither q nor quit, yet the session terminates, because the quit test
is a one-character strncmp against q. -/
theorem processLine_qq_quits :
    processLine ['q', 'q', '\n'] = LineAction.quit := by
  decide

/-- C6 counterexample: the whitespace-only input line consisting of one
space (buffer contents space, newline) is not treated as blank: it is
parsed as hex, yielding 0, and a byte 0x00 is written to the transport. -/
theorem processLine_space_writes_zero :
    processLine [' ', '\n'] = LineAction.writeByte 0 := by
  decide

/-- Helper: a buffer whose first four characters are q, u, i, t starts
with q. -/
theorem take_quit_head (cs : List Char) (h : cs.take 4 = ['q', 'u', 'i', 't']) :
    charAt cs 0 = 'q' := by
  cases cs with
  | nil => simp at h
  | cons c rest =>
      rw [List.take_succ_cons] at h
      have hc : c = 'q' := (List.cons_eq_cons.mp h).1
      simp [charAt, hc]

/-- C5 amended: the interactive session terminates exactly when the first
character of the input line is a lowercase q; the quit tests are
one-character and four-character prefix comparisons, so the exact lines q
and quit terminate, but so does every other line starting with q, while
lines not starting with q never terminate the session. -/
theorem processLine_quit_iff_first_q (cs : List Char) :
    processLine cs = LineAction.quit ↔ charAt cs 0 = 'q' := by
  constructor
  · intro h
    simp only [processLine] at h
    split at h
    · next hc =>
        rcases hc with hc | hc
        · exact hc
        · exact take_quit_head cs hc
    · split at h
      · split at h <;> simp at h
      · simp at h
  · intro h
    simp only [processLine]
    rw [if_pos (Or.inl h)]

/-- C6 amended: the interactive session treats a line as blank, staying in
the prompt state with no transport activity, exactly when the line does
not start with q and either its first character is a newline or its second
character is a carriage return; other whitespace-only lines, such as a
single space, are instead parsed as hex. -/
theorem processLine_reprompt_iff (cs : List Char) :
    processLine cs = LineAction.reprompt ↔
      (charAt cs 0 ≠ 'q' ∧ (charAt cs 0 = '\n' ∨ charAt cs 1 = '\r')) := by
  constructor
  · intro h
    simp only [processLine] at h
    split at h
    · simp at h
    · next hq =>
        push_neg at hq
        split at h
        · split at h <;> simp at h
        · next hb =>
            refine ⟨hq.1, ?_⟩
            by_contra hc
            push_neg at hc
            exact hb ⟨hc.1, hc.2⟩
  · rintro ⟨hq, hb⟩
    have h1 : ¬(charAt cs 0 = 'q' ∨ cs.take 4 = ['q', 'u', 'i', 't']) := by
      rintro (hc | hc)
      · exact hq hc
      · exact hq (take_quit_head cs hc)
    have h2 : ¬(charAt cs 0 ≠ '\n' ∧ charAt cs 1 ≠ '\r') := by
      rintro ⟨hn, hr⟩
      rcases hb with hb | hb
      · exact hn hb
      · exact hr hb
    simp only [processLine]
    rw [if_neg h1, if_neg h2]

/-- C4 counterexample: for the read stream that delivers one byte and then
fails with -1, one byte is collected, yet the running total ends at 0
because the -1 return value is added to it; the code therefore reports no
response despite a collected byte. -/
theorem drain_negative_terminal_miscount :
    collectedCount [((1 : Int), 0xAA), ((-1 : Int), 0)] = 1 ∧
    (drainMachine [((1 : Int), 0xAA), ((-1 : Int), 0)] 0 (fun _ => 0)).map
        (fun r => r.1) = some 0 := by
  refine ⟨by decide, by decide⟩

/-- Helper: when every read returns at most one byte and the drain ends
with a read returning zero, the drain machine started at offset t ends
with total t plus the number of collected bytes, the buffer holds the
collected bytes at offsets t upward, and lower offsets are untouched. -/
theorem drain_zero_terminal_spec (reads : List (Int × Nat)) :
    ∀ (t : Int) (mem : Int → Nat),
      (∀ p ∈ reads, p.1 ≤ 1) → drainTerminal reads = some 0 →
      ∃ memF, drainMachine reads t mem = some (t + collectedCount reads, memF) ∧
        (∀ i : Nat, i < collectedCount reads →
          memF (t + i) = (collectedBytes reads).getD i 0) ∧
        (∀ j : Int, j < t → memF j = mem j) := by
  induction reads with
  | nil =>
      intro t mem _ h0
      simp [drainTerminal] at h0
  | cons p rest ih =>
      intro t mem h1 h0
      obtain ⟨r, b⟩ := p
      by_cases hp : (0 : Int) < r
      · have hr1 : r = 1 := by
          have := h1 (r, b) (by simp)
          simp at this
          omega
        subst hr1
        have h0' : drainTerminal rest = some 0 := by
          simpa [drainTerminal] using h0
        obtain ⟨memF, hrun, hvals, hlow⟩ :=
          ih (t + 1) (fun i => if i = t then b else mem i)
            (fun q hq => h1 q (by simp [hq])) h0'
        have hcc : collectedCount (((1 : Int), b) :: rest) = collectedCount rest + 1 := by
          simp [collectedCount, List.takeWhile_cons]
        have hcb : collectedBytes (((1 : Int), b) :: rest) = b :: collectedBytes rest := by
          simp [collectedBytes, List.takeWhile_cons]
        refine ⟨memF, ?_, ?_, ?_⟩
        · have hstep : drainMachine (((1 : Int), b) :: rest) t mem =
              drainMachine rest (t + 1) (fun i => if i = t then b else mem i) := by
            simp [drainMachine]
          rw [hstep, hrun, hcc]
          have harith : t + 1 + (collectedCount rest : Int) =
              t + ((collectedCount rest + 1 : Nat) : Int) := by
            push_cast
            ring
          rw [harith]
        · intro i hi
          rw [hcc] at hi
          rw [hcb]
          cases i with
          | zero =>
              have hmem : memF t = (fun i => if i = t then b else mem i) t :=
                hlow t (by omega)
              simp at hmem
              simpa using hmem
          | succ j =>
              have hj : j < collectedCount rest := by omega
              have hv := hvals j hj
              have harith : t + ((j + 1 : Nat) : Int) = t + 1 + (j : Int) := by
                push_cast
                ring
              rw [harith, hv]
              simp
        · intro j hj
          have := hlow j (by omega)
          simp only [this]
          rw [if_neg (by omega)]
      · have hr0 : r = 0 := by
          have : some r = some 0 := by simpa [drainTerminal, hp] using h0
          simpa using this
        subst hr0
        have hcc : collectedCount (((0 : Int), b) :: rest) = 0 := by
          simp [collectedCount, List.takeWhile_cons]
        refine ⟨mem, ?_, ?_, fun j _ => rfl⟩
        · simp [drainMachine, hcc]
        · intro i hi
          rw [hcc] at hi
          omega

/-- C4 amended: the drain loop reads single bytes until a read returns
zero or fewer, adding each return value, including a terminal negative
one, to the running total; when the drain terminates with a read
returning exactly zero, the total equals the number of collected bytes,
the code reports no response exactly when zero bytes were collected, and
otherwise the rendered prefix of the buffer is all and only the collected
bytes; a terminal negative return instead lowers the total below the
collected count. -/
theorem drain_renders_collected_bytes (reads : List (Int × Nat)) (mem0 : Int → Nat)
    (h1 : ∀ p ∈ reads, p.1 ≤ 1) (h0 : drainTerminal reads = some 0) :
    ∃ memF, drainMachine reads 0 mem0 = some ((collectedCount reads : Int), memF) ∧
      (0 < (collectedCount reads : Int) ↔ collectedBytes reads ≠ []) ∧
      (List.range (collectedCount reads)).map (fun i : Nat => memF (i : Int)) =
        collectedBytes reads := by
  obtain ⟨memF, hrun, hvals, _⟩ := drain_zero_terminal_spec reads 0 mem0 h1 h0
  have hlen : (collectedBytes reads).length = collectedCount reads := by
    simp [collectedBytes, collectedCount]
  refine ⟨memF, by simpa using hrun, ?_, ?_⟩
  · rw [Int.natCast_pos, ← hlen, List.length_pos]
  · refine List.ext_getElem (by rw [List.length_map, List.length_range, hlen]) ?_
    intro i h1i h2i
    simp only [List.getElem_map, List.getElem_range]
    have hi : i < collectedCount reads := by
      rw [List.length_map, List.length_range] at h1i
      exact h1i
    have hv := hvals i hi
    rw [zero_add] at hv
    rw [hv, List.getD_eq_getElem]

/-- Witness for drain_renders_collected_bytes at the read stream that
delivers two bytes and then reports no more data. -/
theorem drain_renders_collected_bytes_witness :
    (∀ p ∈ [((1 : Int), 171), ((1 : Int), 205), ((0 : Int), 0)], p.1 ≤ 1) ∧
    drainTerminal [((1 : Int), 171), ((1 : Int), 205), ((0 : Int), 0)] = some 0 ∧
    ∃ memF,
      drainMachine [((1 : Int), 171), ((1 : Int), 205), ((0 : Int), 0)] 0 (fun _ => 0) =
        some ((collectedCount [((1 : Int), 171), ((1 : Int), 205), ((0 : Int), 0)] : Int),
          memF) ∧
      (0 < (collectedCount [((1 : Int), 171), ((1 : Int), 205), ((0 : Int), 0)] : Int) ↔
        collectedBytes [((1 : Int), 171), ((1 : Int), 205), ((0 : Int), 0)] ≠ []) ∧
      (List.range (collectedCount [((1 : Int), 171), ((1 : Int), 205), ((0 : Int), 0)])).map
          (fun i : Nat => memF (i : Int)) =
        collectedBytes [((1 : Int), 171), ((1 : Int), 205), ((0 : Int), 0)] :=
  ⟨by decide, by decide,
    drain_renders_collected_bytes _ (fun _ => 0) (by decide) (by decide)⟩

/-- Helper: under the single-byte read bound, the offsets written by the
drain loop started at offset t are exactly t, t+1, ... for each collected
byte. -/
theorem drainWriteOffsets_eq_range (reads : List (Int × Nat)) :
    ∀ t : Int, (∀ p ∈ reads, p.1 ≤ 1) →
      drainWriteOffsets reads t =
        (List.range (collectedCount reads)).map (fun i : Nat => t + (i : Int)) := by
  induction reads with
  | nil =>
      intro t _
      simp [drainWriteOffsets, collectedCount]
  | cons p rest ih =>
      intro t h1
      obtain ⟨r, b⟩ := p
      by_cases hp : (0 : Int) < r
      · have hr1 : r = 1 := by
          have := h1 (r, b) (by simp)
          simp at this
          omega
        subst hr1
        have hcc : collectedCount (((1 : Int), b) :: rest) = collectedCount rest + 1 := by
          simp [collectedCount, List.takeWhile_cons]
        rw [hcc]
        have hstep : drainWriteOffsets (((1 : Int), b) :: rest) t =
            t :: drainWriteOffsets rest (t + 1) := by
          simp [drainWriteOffsets]
        rw [hstep, ih (t + 1) (fun q hq => h1 q (by simp [hq]))]
        rw [List.range_succ_eq_map]
        simp only [List.map_cons, List.map_map]
        refine List.cons_eq_cons.mpr ⟨by simp, ?_⟩
        refine List.map_congr_left ?_
        intro a _
        simp [Function.comp]
        ring
      · have hr : ¬ r > 0 := hp
        have hcc : collectedCount (((r : Int), b) :: rest) = 0 := by
          simp [collectedCount, List.takeWhile_cons, hp]
        rw [hcc]
        simp [drainWriteOffsets, hr]

/-- C10: every byte received by the drain loop is stored at the running
total offset with no capacity check; under the precondition that at most
16384 bytes are collected, every write offset is within the 16384-byte
response buffer; and for every n, a stream delivering n bytes produces
write offsets 0 through n-1, so nothing in the loop bounds them,
and a stream of 16385 bytes writes at offset 16384. -/
theorem drain_offsets_in_bounds_and_unchecked :
    (∀ reads : List (Int × Nat), (∀ p ∈ reads, p.1 ≤ 1) →
        collectedCount reads ≤ responseBufferSize →
        ∀ off ∈ drainWriteOffsets reads 0, 0 ≤ off ∧ off < (responseBufferSize : Int)) ∧
    (∀ n : Nat, drainWriteOffsets (List.replicate n ((1 : Int), 0) ++ [((0 : Int), 0)]) 0 =
        (List.range n).map (fun i : Nat => (i : Int))) ∧
    (16384 : Int) ∈
      drainWriteOffsets (List.replicate 16385 ((1 : Int), 0) ++ [((0 : Int), 0)]) 0 := by
  have key : ∀ n : Nat,
      drainWriteOffsets (List.replicate n ((1 : Int), 0) ++ [((0 : Int), 0)]) 0 =
        (List.range n).map (fun i : Nat => (i : Int)) := by
    intro n
    have hall : ∀ p ∈ List.replicate n ((1 : Int), 0) ++ [((0 : Int), 0)], p.1 ≤ 1 := by
      intro p hp
      rcases List.mem_append.mp hp with hp | hp
      · rw [List.eq_of_mem_replicate hp]
      · simp at hp
        rw [hp]
        simp
    have hcc : collectedCount (List.replicate n ((1 : Int), 0) ++ [((0 : Int), 0)]) = n := by
      induction n with
      | zero => simp [collectedCount, List.takeWhile_cons]
      | succ k ihk =>
          rw [List.replicate_succ, List.cons_append]
          simp [collectedCount, List.takeWhile_cons] at ihk ⊢
    rw [drainWriteOffsets_eq_range _ 0 hall, hcc]
    simp
  refine ⟨?_, key, ?_⟩
  · intro reads hall hbound off hoff
    rw [drainWriteOffsets_eq_range reads 0 hall] at hoff
    simp only [List.mem_map, List.mem_range] at hoff
    obtain ⟨i, hi, hoffeq⟩ := hoff
    have : i < responseBufferSize := by omega
    constructor
    · omega
    · rw [← hoffeq]
      omega
  · rw [key 16385]
    simp only [List.mem_map, List.mem_range]
    exact ⟨16384, by norm_num, rfl⟩

/-- Witness for the bounded part of drain_offsets_in_bounds_and_unchecked
at a stream delivering one byte. -/
theorem drain_offsets_in_bounds_witness :
    (∀ p ∈ [((1 : Int), 7), ((0 : Int), 0)], p.1 ≤ 1) ∧
    collectedCount [((1 : Int), 7), ((0 : Int), 0)] ≤ responseBufferSize ∧
    ∀ off ∈ drainWriteOffsets [((1 : Int), 7), ((0 : Int), 0)] 0,
      0 ≤ off ∧ off < (responseBufferSize : Int) :=
  ⟨by decide, by decide,
    drain_offsets_in_bounds_and_unchecked.1 _ (by decide) (by decide)⟩

end Readmems
